import Mathlib

/-
Verification development for PyWMIPersistenceFinder-python3.py.

The script scans a raw OBJECTS.DATA byte dump in two passes.  Each pass reads
the file with readline into newline-delimited units and slides a 4-unit window
over them (join with a single space byte).  Pass 1 looks for the literal
marker "_FilterToConsumerBinding" in a window and captures a consumer name and
a filter name with two byte regexes; pass 2 strips newline bytes from the
window and, for every name discovered in pass 1, builds a per-name pattern to
pull structured details.  The report joins the binding registry with the
detail sets.

Bytes are modelled as Nat (the value of the byte, 0..255); byte strings as
List Nat.  Python dicts are modelled as insertion-ordered association lists,
Python sets of byte strings as insertion-ordered duplicate-free lists (order
is the model's choice; CPython set iteration order is not specified).
Fallible steps (the bytes.format AttributeError in the CommandLineEventConsumer
branch, strict decoding at report time, dict key lookups) are modelled with
Except.
-/

deriving instance DecidableEq for Except

namespace PyWMI

/-- Byte values of an ASCII string literal (every source literal is ASCII). -/
def ascii (s : String) : List Nat := s.data.map Char.toNat

/-- Python regex `\w` on bytes: [a-zA-Z0-9_]. -/
def isWordByte (b : Nat) : Bool :=
  (48 ≤ b && b ≤ 57) || (65 ≤ b && b ≤ 90) || (97 ≤ b && b ≤ 122) || b == 95

/-- Python regex `\s` on bytes: space, tab, newline, carriage return, form feed, vertical tab. -/
def isSpaceByte (b : Nat) : Bool :=
  b == 32 || b == 9 || b == 10 || b == 13 || b == 12 || b == 11

/-- Byte class `[\w\s]` used by the two name-capture groups of pass 1. -/
def isNameByte (b : Nat) : Bool := isWordByte b || isSpaceByte b

/-- Python `needle in hay` on byte strings: contiguous substring test. -/
def containsSub (n : List Nat) : List Nat → Bool
  | [] => n.isEmpty
  | b :: bs => n.isPrefixOf (b :: bs) || containsSub n bs

/-- Repeated `readline` on the byte source: `acc` holds the bytes of the
current unit read so far (reversed); a newline byte (10) closes the unit and
is kept at its end, a final unit without newline is emitted if non-empty. -/
def splitAux (acc : List Nat) : List Nat → List (List Nat)
  | [] => if acc = [] then [] else [acc.reverse]
  | b :: bs =>
    if b = 10 then (acc.reverse ++ [10]) :: splitAux [] bs
    else splitAux (b :: acc) bs

/-- The sequence of units `readline` produces on the whole byte source. -/
def splitUnits (l : List Nat) : List (List Nat) := splitAux [] l

/-- Window content: `b" ".join(lines_list)`. -/
def joinSp (ws : List (List Nat)) : List Nat := List.intercalate [32] ws

/-- The loop of both passes: `lines_list` holds the last four units read,
`rest` the units not yet read (readline yields [] at end of source).  While
the most recently read unit is non-empty, the current window is evaluated,
then the next unit is appended and the oldest dropped. -/
def scanWindows : List (List Nat) → List (List Nat) → List (List (List Nat))
  | ll, [] => if ll.getLastD [] = [] then [] else [ll]
  | ll, u :: rest =>
    if ll.getLastD [] = [] then [] else ll :: scanWindows (ll.drop 1 ++ [u]) rest

/-- All windows a pass evaluates on a given byte source: four units are read
up front (missing reads give the empty unit), then the loop runs. -/
def evaluatedWindows (d : List Nat) : List (List (List Nat)) :=
  let us := splitUnits d
  scanWindows [us.getD 0 [], us.getD 1 [], us.getD 2 [], us.getD 3 []] (us.drop 4)

/-- Match attempt of a pass-1 name pattern anchored at a suffix `s` of the
window: the literal part of the pattern (`EventConsumer.Name="` resp.
`_EventFilter.Name="`), then the greedy capture `[\w\s]*`, which must be
followed by the closing quote byte 34.  The capture class excludes the quote,
so the greedy run is forced and no shorter backtrack can succeed. -/
def nameCheck (lit s : List Nat) : Option (List Nat) :=
  if lit.isPrefixOf s then
    let r := s.drop lit.length
    if (r.dropWhile isNameByte).headD 0 = 34 then some (r.takeWhile isNameByte)
    else none
  else none

/-- Match attempt at position `i` of the page. -/
def nameMatchAt (lit page : List Nat) (i : Nat) : Option (List Nat) :=
  nameCheck lit (page.drop i)

/-- re.search for the pass-1 name patterns: the leftmost position whose
anchored attempt succeeds wins.  For `([\w\_]*EventConsumer\.Name\=\")` the
optional word-char prefix never changes the captured name and never reorders
matches (the literal contains non-word bytes), so the captured group 2 is the
name at the first matching literal occurrence. -/
def extractName (lit : List Nat) : List Nat → Option (List Nat)
  | [] => none
  | b :: bs =>
    match nameCheck lit (b :: bs) with
    | some n => some n
    | none => extractName lit bs

def markerBinding : List Nat := ascii "_FilterToConsumerBinding"
def litConsumerName : List Nat := ascii "EventConsumer.Name=\""
def litFilterName : List Nat := ascii "_EventFilter.Name=\""
def litEC : List Nat := ascii "EventConsumer"
def litCLEC : List Nat := ascii "CommandLineEventConsumer"

/-- One discovered FilterToConsumerBinding: the two captured names. -/
structure Binding where
  consumer : List Nat
  filterName : List Nat
deriving DecidableEq

/-- Binding id bytes: `b"%b-%b" % (consumer, filter)`; the Python code then
decodes them (always ASCII, see the claim on captured name bytes). -/
def bid (cn fn : List Nat) : List Nat := cn ++ 45 :: fn

/-- The three registries: bindings_dict, consumer_dict, filter_dict.
Dict entries are kept in insertion order; the detail sets are
insertion-ordered duplicate-free lists. -/
structure ScanState where
  bindings : List (List Nat × Binding)
  consumers : List (List Nat × List (List Nat))
  filters : List (List Nat × List (List Nat))
deriving DecidableEq

def initState : ScanState := ⟨[], [], []⟩

/-- Key lookup in an association list (Python `dict[k]` / `k in dict`). -/
def lookKey {β : Type} (k : List Nat) : List (List Nat × β) → Option β
  | [] => none
  | e :: l => if e.1 = k then some e.2 else lookKey k l

def hasKey {β : Type} (reg : List (List Nat × β)) (k : List Nat) : Bool :=
  (lookKey k reg).isSome

/-- `if k not in dict: dict[k] = set()`. -/
def ensureKey (reg : List (List Nat × List (List Nat))) (k : List Nat) :
    List (List Nat × List (List Nat)) :=
  if hasKey reg k then reg else reg ++ [(k, [])]

/-- Pass 1, one window: on the binding marker, search both name patterns; on a
double hit seed the consumer and filter registries and record the binding
under its id unless the id is already known. -/
def pass1Window (st : ScanState) (page : List Nat) : ScanState :=
  if containsSub markerBinding page then
    match extractName litConsumerName page, extractName litFilterName page with
    | some cn, some fn =>
      let c' := ensureKey st.consumers cn
      let f' := ensureKey st.filters fn
      if hasKey st.bindings (bid cn fn) then
        { st with consumers := c', filters := f' }
      else
        { bindings := st.bindings ++ [(bid cn fn, ⟨cn, fn⟩)],
          consumers := c', filters := f' }
    | _, _ => st
  else st

/-- Pass 1 over the whole source. -/
def pass1 (d : List Nat) : ScanState :=
  (evaluatedWindows d).foldl (fun st w => pass1Window st (joinSp w)) initState

/-- Fallible map over a list (sequential, stops at the first error), used for
the report loops. -/
def mapEx {α β : Type} (f : α → Except String β) : List α → Except String (List β)
  | [] => .ok []
  | a :: l =>
    match f a with
    | .error e => .error e
    | .ok b =>
      match mapEx f l with
      | .error e => .error e
      | .ok bs => .ok (b :: bs)

/-- Fallible left fold (sequential, stops at the first error), used for the
pass-2 loops. -/
def foldEx {α : Type} (f : ScanState → α → Except String ScanState) :
    ScanState → List α → Except String ScanState
  | st, [] => .ok st
  | st, a :: l =>
    match f st a with
    | .error e => .error e
    | .ok st' => foldEx f st' l

/-- Pass-2 page: window content with every newline byte removed
(`b" ".join(lines_list).replace(b"\n", b"")`). -/
def page2Of (w : List (List Nat)) : List Nat := (joinSp w).filter (fun b => b ≠ 10)

/-- After the first byte 0 of the gap `(.*?)(\x00)`: bytes following that 0,
provided no newline byte stands before it (`.` does not match newline). -/
def seekZero : List Nat → Option (List Nat)
  | [] => none
  | 0 :: bs => some bs
  | 10 :: _ => none
  | _ :: bs => seekZero bs

/-- Whether `lit` occurs with only non-newline bytes before it (the lazy gap
`(.*?)` in front of it). -/
def seekLit (lit : List Nat) : List Nat → Bool
  | [] => lit.isEmpty
  | b :: bs => lit.isPrefixOf (b :: bs) || (b ≠ 10 && seekLit lit bs)

/-- Matchability of the tail `(\x00\x00)(.*?)(\x00)(.*?)(name)(\x00\x00)?([^\x00]*)?`
after an occurrence of the CommandLineEventConsumer literal: a double null,
then somewhere a null, then somewhere the name, gaps free of newline bytes;
the two optional trailing groups always match (possibly empty). -/
def clecTail (cn : List Nat) (r : List Nat) : Bool :=
  match seekZero r with
  | some rest => seekLit cn rest
  | none => false

/-- Matchability of the pass-2 pattern
`(CommandLineEventConsumer)(\x00\x00)(.*?)(\x00)(.*?)(name)(\x00\x00)?([^\x00]*)?`
on a page.  A hit makes the Python code evaluate `b"...".format(...)`, which
raises AttributeError on Python 3 (bytes has no format method), so only
matchability matters, not the captures. -/
def clecMatches (cn : List Nat) : List Nat → Bool
  | [] => false
  | b :: bs =>
    ((litCLEC ++ [0, 0]).isPrefixOf (b :: bs) &&
      clecTail cn ((b :: bs).drop (litCLEC.length + 2))) ||
    clecMatches cn bs

/-- Tail search of the generic consumer pattern after the `EventConsumer`
literal: the lazy gap `(.*?)` (newline-free, vacuous on stripped pages) grows
until `(name)(\x00\x00)` matches and the greedy run `([^\x00]*)` is followed
by `(\x00\x00)`; the final greedy run `([^\x00]*)` closes the match.  The
character class excludes the null byte, so the greedy runs cannot backtrack
to a shorter length and a failure extends the gap instead. -/
def findDetailTail (cn : List Nat) : List Nat → Option (List Nat × List Nat)
  | [] => none
  | b :: bs =>
    (if (cn ++ [0, 0]).isPrefixOf (b :: bs) then
      let r := (b :: bs).drop (cn.length + 2)
      match r.dropWhile (fun x => x ≠ 0) with
      | 0 :: 0 :: r2 => some (r.takeWhile (fun x => x ≠ 0), r2.takeWhile (fun x => x ≠ 0))
      | _ => none
    else none) <|>
    (if b = 10 then none else findDetailTail cn bs)

/-- Match attempt of `(\w*EventConsumer)` with exactly `k` word bytes before
the literal, anchored at the suffix `s`; on success of the rest of the
pattern returns (group 1, group 5, group 7). -/
def checkK (cn s : List Nat) (k : Nat) : Option (List Nat × List Nat × List Nat) :=
  if litEC.isPrefixOf (s.drop k) then
    match findDetailTail cn (s.drop (k + 13)) with
    | some (r1, r2) => some (s.take (k + 13), r1, r2)
    | none => none
  else none

/-- Greedy `\w*`: word-run lengths are tried from longest to shortest. -/
def tryKs (cn s : List Nat) : Nat → Option (List Nat × List Nat × List Nat)
  | 0 => checkK cn s 0
  | k + 1 =>
    match checkK cn s (k + 1) with
    | some x => some x
    | none => tryKs cn s k

/-- re.search of the generic consumer pattern
`(\w*EventConsumer)(.*?)(name)(\x00\x00)([^\x00]*)(\x00\x00)([^\x00]*)`:
start positions left to right; at each start the greedy word-char prefix is
bounded by the maximal word run there. -/
def genericSearch (cn : List Nat) : List Nat → Option (List Nat × List Nat × List Nat)
  | [] => none
  | b :: bs =>
    match tryKs cn (b :: bs) ((b :: bs).takeWhile isWordByte).length with
    | some x => some x
    | none => genericSearch cn bs

/-- Detail bytes `b"%b ~ %b ~ %b ~ %b" % (groups 0, 2, 4, 6)` of the generic
consumer branch. -/
def genericDetail (g0 cn r1 r2 : List Nat) : List Nat :=
  g0 ++ [32, 126, 32] ++ cn ++ [32, 126, 32] ++ r1 ++ [32, 126, 32] ++ r2

/-- Python `set.add`: append the record unless an equal one is present. -/
def addToSet (s : List (List Nat)) (d : List Nat) : List (List Nat) :=
  if d ∈ s then s else s ++ [d]

/-- `reg[k].add(d)` for the registries: the entry of key `k` gets the detail,
other entries are untouched. -/
def addDetail (reg : List (List Nat × List (List Nat))) (k d : List Nat) :
    List (List Nat × List (List Nat)) :=
  reg.map (fun e => if e.1 = k then (e.1, addToSet e.2 d) else e)

/-- Pass 2, consumer loop body for one known consumer name on one page:
inside the `EventConsumer` gate, the CommandLineEventConsumer branch raises
AttributeError as soon as its pattern matches (bytes.format does not exist on
Python 3); the generic branch records its detail on a match. -/
def consumerStep (page : List Nat) (st : ScanState) (cn : List Nat) :
    Except String ScanState :=
  if containsSub litCLEC page then
    if clecMatches cn page then .error "AttributeError: bytes.format"
    else .ok st
  else
    match genericSearch cn page with
    | some (g0, r1, r2) =>
      .ok { st with consumers := addDetail st.consumers cn (genericDetail g0 cn r1 r2) }
    | none => .ok st

/-- re.search of the pass-2 filter pattern `(name)(\x00\x00)([^\x00]*)(\x00\x00)`:
first occurrence of the name followed by a double null whose maximal non-null
run is closed by a double null; returns the query capture. -/
def filterSearch (fn : List Nat) : List Nat → Option (List Nat)
  | [] => none
  | b :: bs =>
    if (fn ++ [0, 0]).isPrefixOf (b :: bs) then
      let r := (b :: bs).drop (fn.length + 2)
      match r.dropWhile (fun x => x ≠ 0) with
      | 0 :: 0 :: _ => some (r.takeWhile (fun x => x ≠ 0))
      | _ => filterSearch fn bs
    else filterSearch fn bs

/-- Detail bytes `b"\n\t\tFilter name:  %b\n\t\tFilter Query: %b" % (groups 0, 2)`. -/
def filterDetail (fn q : List Nat) : List Nat :=
  ascii "\n\t\tFilter name:  " ++ fn ++ ascii "\n\t\tFilter Query: " ++ q

/-- Pass 2, filter loop body for one known filter name on one page. -/
def filterStep (page : List Nat) (st : ScanState) (fn : List Nat) : ScanState :=
  if containsSub fn page then
    match filterSearch fn page with
    | some q => { st with filters := addDetail st.filters fn (filterDetail fn q) }
    | none => st
  else st

/-- Pass 2, one window: consumer loop (gated on the `EventConsumer` literal)
over the consumer names known from pass 1, then the filter loop over the
known filter names. -/
def pass2Window (st : ScanState) (page : List Nat) : Except String ScanState :=
  match
    (if containsSub litEC page then
      foldEx (consumerStep page) st (st.consumers.map Prod.fst)
    else .ok st) with
  | .error e => .error e
  | .ok st1 => .ok ((st1.filters.map Prod.fst).foldl (filterStep page) st1)

/-- Pass 2 over the whole source (second independent traversal). -/
def pass2 (d : List Nat) (st : ScanState) : Except String ScanState :=
  foldEx (fun s w => pass2Window s (page2Of w)) st (evaluatedWindows d)

/-- One step of the strict UTF-8 acceptor (the table CPython's strict
decoder implements, overlong forms and surrogates rejected).  The state is
none when the input is already invalid, otherwise (remaining continuation
bytes, lower bound, upper bound) for the next byte; a fresh lead byte is
classified when no continuation byte is pending. -/
def utf8Next : Option (Nat × Nat × Nat) → Nat → Option (Nat × Nat × Nat)
  | none, _ => none
  | some (0, _, _), b =>
    if b ≤ 127 then some (0, 128, 191)
    else if 194 ≤ b && b ≤ 223 then some (1, 128, 191)
    else if b = 224 then some (2, 160, 191)
    else if (225 ≤ b && b ≤ 236) || b = 238 || b = 239 then some (2, 128, 191)
    else if b = 237 then some (2, 128, 159)
    else if b = 240 then some (3, 144, 191)
    else if 241 ≤ b && b ≤ 243 then some (3, 128, 191)
    else if b = 244 then some (3, 128, 143)
    else none
  | some (k + 1, lo, hi), b => if lo ≤ b && b ≤ hi then some (k, 128, 191) else none

/-- Validity of a byte string under strict UTF-8 decoding: the acceptor ends
on a fresh-lead state. -/
def utf8Valid (l : List Nat) : Bool :=
  match l.foldl utf8Next (some (0, 128, 191)) with
  | some (0, _, _) => true
  | _ => false

/-- Strict `.decode(...)` of the report step, modelled over UTF-8 (the common
locale default used for display): the byte content passes through when it is
valid under the encoding, otherwise the step raises. -/
def decodeChecked (bs : List Nat) : Except String (List Nat) :=
  if utf8Valid bs then .ok bs else .error "UnicodeDecodeError"

def allow1 : List Nat := ascii "BVTConsumer-BVTFilter"
def allow2 : List Nat := ascii "SCM Event Log Consumer-SCM Event Log Filter"

/-- The benign-binding check of the report:
`"BVTConsumer-BVTFilter" in binding_name or "SCM Event Log Consumer-SCM Event Log Filter" in binding_name`
(substring containment on the binding id). -/
def isCommonId (idb : List Nat) : Bool := containsSub allow1 idb || containsSub allow2 idb

/-- One rendered binding block of the report: the id line, whether the
common-binding advisory line is attached, the decoded consumer detail lines
(or the raw-name fallback) and the decoded filter detail lines. -/
structure Entry where
  idBytes : List Nat
  common : Bool
  consumerLines : List (List Nat)
  filterLines : List (List Nat)
deriving DecidableEq

/-- The consumer block of one binding: each detail decoded, or — when the
detail set is empty — the decoded raw consumer name as fallback. -/
def consumerLinesOf (cn : List Nat) (cds : List (List Nat)) :
    Except String (List (List Nat)) :=
  if cds.isEmpty then
    match decodeChecked cn with
    | .error er => .error er
    | .ok n => .ok [n]
  else mapEx decodeChecked cds

/-- Rendering of one binding: print the id (with the advisory line when the
allow-list containment check hits), then the consumer block, then each
filter detail decoded.  Dict lookups raise KeyError when the key is absent. -/
def renderEntry (st : ScanState) (e : List Nat × Binding) : Except String Entry :=
  match lookKey e.2.consumer st.consumers with
  | none => .error "KeyError"
  | some cds =>
    match consumerLinesOf e.2.consumer cds with
    | .error er => .error er
    | .ok cls =>
      match lookKey e.2.filterName st.filters with
      | none => .error "KeyError"
      | some fds =>
        match mapEx decodeChecked fds with
        | .error er => .error er
        | .ok fls => .ok ⟨e.1, isCommonId e.1, cls, fls⟩

/-- The report body: bindings rendered in discovery order. -/
def reportEntries (st : ScanState) : Except String (List Entry) :=
  mapEx (renderEntry st) st.bindings

/-- The whole scan: pass 1, the binding count printed after it, pass 2, then
the rendered report. -/
def report (d : List Nat) : Except String (Nat × List Entry) :=
  match pass2 d (pass1 d) with
  | .error e => .error e
  | .ok st =>
    match reportEntries st with
    | .error e => .error e
    | .ok es => .ok ((pass1 d).bindings.length, es)

/-- Input of the end-to-end scenario: one CommandLineEventConsumer named
Updater, one event filter named Trigger, one FilterToConsumerBinding record
referencing both. -/
def c1Input : List Nat :=
  ascii "_FilterToConsumerBinding CommandLineEventConsumer.Name=\"Updater\" _EventFilter.Name=\"Trigger\"\n" ++
  ascii "CommandLineEventConsumer" ++ [0, 0] ++ ascii "cmd.exe" ++ [0] ++
    ascii "Updater" ++ [0, 0, 10] ++
  ascii "Trigger" ++ [0, 0] ++ ascii "SELECT x" ++ [0, 0, 10] ++
  ascii "z\n"

/-- Input whose single binding id strictly contains an allow-list id. -/
def c2Input : List Nat :=
  ascii "_FilterToConsumerBinding EventConsumer.Name=\"XBVTConsumer\" _EventFilter.Name=\"BVTFilter\"\n" ++
  ascii "z\nz\nz\n"

/-- Input whose filter query capture holds the byte 255, invalid UTF-8. -/
def c4Input : List Nat :=
  ascii "_FilterToConsumerBinding EventConsumer.Name=\"C\" _EventFilter.Name=\"F\"\n" ++
  [70, 0, 0, 255, 0, 0, 10] ++
  ascii "z\nz\n"

/-- Input whose binding record is visible in two adjacent 4-unit windows. -/
def c6Input : List Nat :=
  ascii "z\n_FilterToConsumerBinding\nEventConsumer.Name=\"A\" _EventFilter.Name=\"B\"\nz\nz\nz\n"

/-- Growth relation on one registry entry across pass 2: same key, the detail
set only extended at the end. -/
def detailGrow (a b : List Nat × List (List Nat)) : Prop :=
  b.1 = a.1 ∧ ∃ t, b.2 = a.2 ++ t

/-- Effect of the pass-2 consumer loop on the state: bindings and filters
untouched, consumer entries only grown. -/
def consGrow (s s' : ScanState) : Prop :=
  s'.bindings = s.bindings ∧ s'.filters = s.filters ∧
    List.Forall₂ detailGrow s.consumers s'.consumers

/-- Effect of the pass-2 filter loop on the state: bindings and consumers
untouched, filter entries only grown. -/
def filtGrow (s s' : ScanState) : Prop :=
  s'.bindings = s.bindings ∧ s'.consumers = s.consumers ∧
    List.Forall₂ detailGrow s.filters s'.filters

/- ————————————————————————————————————————————————————————————————————
Lemmas about the window reader.
———————————————————————————————————————————————————————————————————— -/

theorem getLastD_append_single (l : List (List Nat)) (u d : List Nat) :
    (l ++ [u]).getLastD d = u := by
  induction l generalizing d with
  | nil => rfl
  | cons a t ih => rw [List.cons_append, List.getLastD_cons]; exact ih a

theorem getLastD_ne_default {l : List (List Nat)} (d d' : List Nat) (h : l ≠ []) :
    l.getLastD d = l.getLastD d' := by
  cases l with
  | nil => exact absurd rfl h
  | cons a t => rw [List.getLastD_cons, List.getLastD_cons]

theorem getLastD_append (l1 l2 : List (List Nat)) (d : List Nat) (h : l2 ≠ []) :
    (l1 ++ l2).getLastD d = l2.getLastD d := by
  induction l1 generalizing d with
  | nil => rfl
  | cons a t ih =>
    rw [List.cons_append, List.getLastD_cons, ih a, getLastD_ne_default a d h]

theorem getLastD_four (w x y z d : List Nat) : ([w, x, y, z] : List (List Nat)).getLastD d = z := by
  rw [List.getLastD_cons, List.getLastD_cons, List.getLastD_cons, List.getLastD_cons]
  rfl

theorem scanWindows_nil_eq {ll : List (List Nat)} (h : ll.getLastD [] ≠ []) :
    scanWindows ll [] = [ll] := by
  simp only [scanWindows]
  rw [if_neg h]

theorem scanWindows_cons_eq {ll : List (List Nat)} (u : List Nat) (rs : List (List Nat))
    (h : ll.getLastD [] ≠ []) :
    scanWindows ll (u :: rs) = ll :: scanWindows (ll.drop 1 ++ [u]) rs := by
  simp only [scanWindows]
  rw [if_neg h]

theorem scanWindows_nil_of_last {ll : List (List Nat)} (rest : List (List Nat))
    (h : ll.getLastD [] = []) : scanWindows ll rest = [] := by
  cases rest with
  | nil => simp only [scanWindows]; rw [if_pos h]
  | cons u rs => simp only [scanWindows]; rw [if_pos h]

theorem scanWindows_cons {ll : List (List Nat)} (rest : List (List Nat))
    (h : ll.getLastD [] ≠ []) : ∃ t, scanWindows ll rest = ll :: t := by
  cases rest with
  | nil => exact ⟨[], scanWindows_nil_eq h⟩
  | cons u rs => exact ⟨_, scanWindows_cons_eq u rs h⟩

theorem scanWindows_cover :
    ∀ (rest ll : List (List Nat)), ll.getLastD [] ≠ [] → (∀ x ∈ rest, x ≠ []) →
      ∀ x, x ∈ ll ++ rest → ∃ w ∈ scanWindows ll rest, x ∈ w := by
  intro rest
  induction rest with
  | nil =>
    intro ll hl _ x hx
    exact ⟨ll, by rw [scanWindows_nil_eq hl]; simp, by simpa using hx⟩
  | cons u rs ih =>
    intro ll hl hr x hx
    have hspl := scanWindows_cons_eq u rs hl
    rcases List.mem_append.1 hx with hx | hx
    · exact ⟨ll, by rw [hspl]; exact List.mem_cons_self ll _, hx⟩
    · have hl' : (ll.drop 1 ++ [u]).getLastD [] ≠ [] := by
        rw [getLastD_append_single]; exact hr u (List.mem_cons_self u rs)
      have hx' : x ∈ (ll.drop 1 ++ [u]) ++ rs := by
        rcases List.mem_cons.1 hx with rfl | hx
        · exact List.mem_append.2 (Or.inl (List.mem_append.2 (Or.inr (List.mem_singleton.2 rfl))))
        · exact List.mem_append.2 (Or.inr hx)
      obtain ⟨w, hw, hxw⟩ :=
        ih (ll.drop 1 ++ [u]) hl' (fun y hy => hr y (List.mem_cons_of_mem u hy)) x hx'
      exact ⟨w, by rw [hspl]; exact List.mem_cons_of_mem _ hw, hxw⟩

theorem scanWindows_last :
    ∀ (rest ll : List (List Nat)), ll.getLastD [] ≠ [] → (∀ x ∈ rest, x ≠ []) →
      ∃ w, (scanWindows ll rest).getLast? = some w ∧
        w.getLastD [] = (ll ++ rest).getLastD [] := by
  intro rest
  induction rest with
  | nil =>
    intro ll hl _
    exact ⟨ll, by rw [scanWindows_nil_eq hl]; rfl, by simp⟩
  | cons u rs ih =>
    intro ll hl hr
    have hl' : (ll.drop 1 ++ [u]).getLastD [] ≠ [] := by
      rw [getLastD_append_single]; exact hr u (List.mem_cons_self u rs)
    obtain ⟨w, hw1, hw2⟩ :=
      ih (ll.drop 1 ++ [u]) hl' (fun y hy => hr y (List.mem_cons_of_mem u hy))
    refine ⟨w, ?_, ?_⟩
    · have hspl := scanWindows_cons_eq u rs hl
      obtain ⟨t, ht⟩ := scanWindows_cons rs hl'
      rw [hspl, ht]
      rw [ht] at hw1
      exact (List.getLast?_cons_cons).trans hw1
    · rw [hw2]
      cases rs with
      | nil =>
        rw [List.append_nil, getLastD_append_single, getLastD_append_single]
      | cons r rs' =>
        have h2 : (u :: r :: rs').getLastD ([] : List Nat) = (r :: rs').getLastD u :=
          List.getLastD_cons [] u (r :: rs')
        rw [getLastD_append (ll.drop 1 ++ [u]) (r :: rs') [] (by simp),
          getLastD_append ll (u :: r :: rs') [] (by simp), h2]
        exact @getLastD_ne_default (r :: rs') [] u (by simp)

theorem splitAux_mem_ne : ∀ (l acc : List Nat), ∀ u ∈ splitAux acc l, u ≠ [] := by
  intro l
  induction l with
  | nil =>
    intro acc u hu
    by_cases h : acc = [] <;> simp [splitAux, h] at hu
    subst hu
    simpa [List.reverse_eq_nil_iff] using h
  | cons b bs ih =>
    intro acc u hu
    by_cases h : b = 10
    · rw [splitAux, if_pos h] at hu
      rcases List.mem_cons.1 hu with rfl | hu
      · simp
      · exact ih [] u hu
    · rw [splitAux, if_neg h] at hu
      exact ih (b :: acc) u hu

theorem mem_splitUnits_ne (d : List Nat) : ∀ u ∈ splitUnits d, u ≠ [] :=
  fun u hu => splitAux_mem_ne d [] u hu

theorem list_four {l : List (List Nat)} (h : 4 ≤ l.length) :
    ∃ a b c e t, l = a :: b :: c :: e :: t := by
  match l, h with
  | a :: b :: c :: e :: t, _ => exact ⟨a, b, c, e, t, rfl⟩
  | [], h => simp at h
  | [_], h => simp at h
  | [_, _], h => simp at h
  | [_, _, _], h => simp at h

/-- Claim C3: the claim that every unit read appears in an evaluated window
fails for non-empty sources with fewer than four units: the loop primes four
reads before the first window test, so the single unit of the one-byte source
"x" is read but no window is ever evaluated. -/
theorem claim_C3_cex :
    splitUnits (ascii "x") = [[120]] ∧ evaluatedWindows (ascii "x") = [] := by
  decide

/-- Claim C3 (amended): when the source has at least four newline-delimited
units, every unit appears in at least one evaluated window and the last
evaluated window carries the final unit as its most recent element; when it
has fewer than four units, no window is evaluated at all. -/
theorem claim_C3 (d : List Nat) :
    (4 ≤ (splitUnits d).length →
      (∀ u ∈ splitUnits d, ∃ w ∈ evaluatedWindows d, u ∈ w) ∧
      (∃ w, (evaluatedWindows d).getLast? = some w ∧
        w.getLastD [] = (splitUnits d).getLastD [])) ∧
    ((splitUnits d).length < 4 → evaluatedWindows d = []) := by
  constructor
  · intro h4
    obtain ⟨a, b, c, e, t, hus⟩ := list_four h4
    have hmem : ∀ x ∈ splitUnits d, x ≠ [] := mem_splitUnits_ne d
    have hew : evaluatedWindows d = scanWindows [a, b, c, e] t := by
      simp [evaluatedWindows, hus]
    have hlast : ([a, b, c, e] : List (List Nat)).getLastD [] ≠ [] := by
      have he : e ∈ splitUnits d := by rw [hus]; simp
      rw [getLastD_four]
      exact hmem e he
    have ht : ∀ x ∈ t, x ≠ [] := by
      intro x hx
      exact hmem x (by rw [hus]; simp [hx])
    constructor
    · intro u hu
      rw [hew]
      refine scanWindows_cover t [a, b, c, e] hlast ht u ?_
      rw [hus] at hu
      simpa using hu
    · obtain ⟨w, hw1, hw2⟩ := scanWindows_last t [a, b, c, e] hlast ht
      refine ⟨w, by rw [hew]; exact hw1, ?_⟩
      rw [hw2, hus]
      rfl
  · intro h4
    have hg : (splitUnits d).getD 3 [] = [] :=
      List.getD_eq_default _ _ (by omega)
    have hlast : ([(splitUnits d).getD 0 [], (splitUnits d).getD 1 [],
        (splitUnits d).getD 2 [], (splitUnits d).getD 3 []] : List (List Nat)).getLastD [] = [] := by
      rw [getLastD_four]
      exact hg
    exact scanWindows_nil_of_last _ hlast

/-- Witness for claim C3 at a four-unit source. -/
theorem claim_C3_witness :
    4 ≤ (splitUnits (ascii "a\nb\nc\nd")).length ∧
      ∃ w ∈ evaluatedWindows (ascii "a\nb\nc\nd"), [97, 10] ∈ w :=
  ⟨by decide,
    ((claim_C3 (ascii "a\nb\nc\nd")).1 (by decide)).1 [97, 10] (by decide)⟩

/- ————————————————————————————————————————————————————————————————————
Lemmas about the registries and pass 1.
———————————————————————————————————————————————————————————————————— -/

theorem lookKey_append {β : Type} (l1 l2 : List (List Nat × β)) (k : List Nat) :
    lookKey k (l1 ++ l2) =
      match lookKey k l1 with
      | some v => some v
      | none => lookKey k l2 := by
  induction l1 with
  | nil => rfl
  | cons e t ih =>
    by_cases h : e.1 = k
    · simp [lookKey, h]
    · simp [lookKey, h, ih]

theorem hasKey_append_right {β : Type} (l1 l2 : List (List Nat × β)) (k : List Nat)
    (h : hasKey l1 k = true) : hasKey (l1 ++ l2) k = true := by
  unfold hasKey at *
  rw [lookKey_append]
  cases hl : lookKey k l1 with
  | none => rw [hl] at h; simp at h
  | some v => simp

theorem hasKey_ensureKey_self (reg : List (List Nat × List (List Nat))) (k : List Nat) :
    hasKey (ensureKey reg k) k = true := by
  unfold ensureKey
  by_cases h : hasKey reg k = true
  · rw [if_pos h]; exact h
  · rw [if_neg h]
    unfold hasKey
    rw [lookKey_append]
    cases hl : lookKey k reg with
    | some v => exact absurd (by unfold hasKey; rw [hl]; rfl) h
    | none => simp [lookKey]

theorem hasKey_ensureKey_mono (reg : List (List Nat × List (List Nat))) (k k' : List Nat)
    (h : hasKey reg k' = true) : hasKey (ensureKey reg k) k' = true := by
  unfold ensureKey
  by_cases hk : hasKey reg k = true
  · rw [if_pos hk]; exact h
  · rw [if_neg hk]; exact hasKey_append_right reg _ k' h

theorem hasKey_false_not_mem_keys {β : Type} (l : List (List Nat × β)) (k : List Nat)
    (h : hasKey l k = false) : k ∉ l.map Prod.fst := by
  induction l with
  | nil => simp
  | cons e t ih =>
    unfold hasKey lookKey at h
    by_cases he : e.1 = k
    · rw [if_pos he] at h; simp at h
    · rw [if_neg he] at h
      simp only [List.map_cons, List.mem_cons]
      rintro (hk | hk)
      · exact he hk.symm
      · exact ih h hk

/-- Shape of one pass-1 window step: either the state is untouched, or both
names were captured in a marker window and the step seeds the registries and
possibly records the binding. -/
theorem pass1Window_shape (st : ScanState) (page : List Nat) :
    pass1Window st page = st ∨
    ∃ cn fn,
      containsSub markerBinding page = true ∧
      extractName litConsumerName page = some cn ∧
      extractName litFilterName page = some fn ∧
      ((hasKey st.bindings (bid cn fn) = true ∧
        pass1Window st page =
          { st with consumers := ensureKey st.consumers cn,
                    filters := ensureKey st.filters fn }) ∨
       (hasKey st.bindings (bid cn fn) = false ∧
        pass1Window st page =
          { bindings := st.bindings ++ [(bid cn fn, ⟨cn, fn⟩)],
            consumers := ensureKey st.consumers cn,
            filters := ensureKey st.filters fn })) := by
  by_cases hm : containsSub markerBinding page = true
  · cases hc : extractName litConsumerName page with
    | none => left; simp [pass1Window, hm, hc]
    | some cn =>
      cases hf : extractName litFilterName page with
      | none =>
        left; simp [pass1Window, hm, hc, hf]
      | some fn =>
        right
        refine ⟨cn, fn, hm, rfl, rfl, ?_⟩
        by_cases hk : hasKey st.bindings (bid cn fn) = true
        · left
          exact ⟨hk, by simp [pass1Window, hm, hc, hf, hk]⟩
        · right
          have hk' : hasKey st.bindings (bid cn fn) = false := by simpa using hk
          exact ⟨hk', by simp [pass1Window, hm, hc, hf, hk']⟩
  · left
    unfold pass1Window
    rw [if_neg hm]

/-- Claim C5: a pass-1 window with the binding marker in which either name
pattern fails to match mutates nothing: the step returns the state unchanged
(binding map, consumer registry and filter registry untouched, no error). -/
theorem claim_C5 (st : ScanState) (page : List Nat)
    (hm : containsSub markerBinding page = true)
    (hfail : extractName litConsumerName page = none ∨
      extractName litFilterName page = none) :
    pass1Window st page = st := by
  rcases hfail with h | h
  · simp [pass1Window, hm, h]
  · cases hc : extractName litConsumerName page with
    | none => simp [pass1Window, hm, hc]
    | some cn => simp [pass1Window, hm, hc, h]

/-- Witness for claim C5: a window holding the bare marker and nothing else. -/
theorem claim_C5_witness :
    containsSub markerBinding (ascii "_FilterToConsumerBinding") = true ∧
      extractName litConsumerName (ascii "_FilterToConsumerBinding") = none ∧
      pass1Window initState (ascii "_FilterToConsumerBinding") = initState :=
  ⟨by decide, by decide,
    claim_C5 initState (ascii "_FilterToConsumerBinding") (by decide) (Or.inl (by decide))⟩

theorem foldl_pres {α : Type} {P : ScanState → Prop} (f : ScanState → α → ScanState)
    (hf : ∀ s a, P s → P (f s a)) :
    ∀ (l : List α) (s : ScanState), P s → P (l.foldl f s) := by
  intro l
  induction l with
  | nil => intro s hs; simpa using hs
  | cons a t ih => intro s hs; rw [List.foldl_cons]; exact ih _ (hf s a hs)

theorem pass1Window_nodup (st : ScanState) (page : List Nat)
    (h : (st.bindings.map Prod.fst).Nodup) :
    ((pass1Window st page).bindings.map Prod.fst).Nodup := by
  rcases pass1Window_shape st page with heq | ⟨cn, fn, _, _, _, ⟨_, heq⟩ | ⟨hk, heq⟩⟩
  · rw [heq]; exact h
  · rw [heq]; exact h
  · rw [heq]
    simp only [List.map_append, List.map_cons, List.map_nil]
    rw [List.nodup_append]
    refine ⟨h, by simp, ?_⟩
    intro a ha hb
    rw [List.mem_singleton] at hb
    subst hb
    exact hasKey_false_not_mem_keys _ _ hk ha

/-- Claim C6: a window whose extracted binding id is already in the binding
map leaves the binding map unchanged; the record split across two adjacent
windows of c6Input yields exactly one binding; and the binding map's keys are
always duplicate-free, so its length (the printed count) is the number of
distinct binding ids. -/
theorem claim_C6 :
    (∀ (st : ScanState) (page : List Nat),
      (∀ cn fn, extractName litConsumerName page = some cn →
        extractName litFilterName page = some fn →
        hasKey st.bindings (bid cn fn) = true) →
      (pass1Window st page).bindings = st.bindings) ∧
    (pass1 c6Input).bindings = [(ascii "A-B", ⟨ascii "A", ascii "B"⟩)] ∧
    (∀ d : List Nat, ((pass1 d).bindings.map Prod.fst).Nodup) := by
  refine ⟨?_, by decide, ?_⟩
  · intro st page hk
    rcases pass1Window_shape st page with heq | ⟨cn, fn, _, hc, hf, ⟨_, heq⟩ | ⟨hkf, heq⟩⟩
    · rw [heq]
    · rw [heq]
    · have := hk cn fn hc hf
      rw [hkf] at this
      exact absurd this (by simp)
  · intro d
    unfold pass1
    exact foldl_pres _ (fun s w hw => pass1Window_nodup s (joinSp w) hw) _ initState (by simp [initState])

/-- Witness for claim C6: recording the same binding again is a no-op. -/
theorem claim_C6_witness :
    (pass1Window
      ⟨[(ascii "A-B", ⟨ascii "A", ascii "B"⟩)], [(ascii "A", [])], [(ascii "B", [])]⟩
      (ascii "_FilterToConsumerBinding EventConsumer.Name=\"A\" _EventFilter.Name=\"B\"")).bindings =
      [(ascii "A-B", ⟨ascii "A", ascii "B"⟩)] := by
  apply claim_C6.1
  intro cn fn hc hf
  have h1 : extractName litConsumerName
      (ascii "_FilterToConsumerBinding EventConsumer.Name=\"A\" _EventFilter.Name=\"B\"") =
      some (ascii "A") := by decide
  have h2 : extractName litFilterName
      (ascii "_FilterToConsumerBinding EventConsumer.Name=\"A\" _EventFilter.Name=\"B\"") =
      some (ascii "B") := by decide
  rw [h1] at hc
  rw [h2] at hf
  cases hc
  cases hf
  decide

/- ————————————————————————————————————————————————————————————————————
Lemmas about pass 2.
———————————————————————————————————————————————————————————————————— -/

theorem forall2_grow_refl (l : List (List Nat × List (List Nat))) :
    List.Forall₂ detailGrow l l := by
  induction l with
  | nil => exact List.Forall₂.nil
  | cons e t ih => exact List.Forall₂.cons ⟨rfl, [], by simp⟩ ih

theorem forall2_grow_trans {l1 l2 l3 : List (List Nat × List (List Nat))}
    (h1 : List.Forall₂ detailGrow l1 l2) (h2 : List.Forall₂ detailGrow l2 l3) :
    List.Forall₂ detailGrow l1 l3 := by
  induction h1 generalizing l3 with
  | nil => cases h2; exact List.Forall₂.nil
  | cons hab h1' ih =>
    cases h2 with
    | cons hbc h2' =>
      refine List.Forall₂.cons ⟨hbc.1.trans hab.1, ?_⟩ (ih h2')
      obtain ⟨t1, ht1⟩ := hab.2
      obtain ⟨t2, ht2⟩ := hbc.2
      exact ⟨t1 ++ t2, by rw [ht2, ht1, List.append_assoc]⟩

theorem forall2_grow_keys {l l' : List (List Nat × List (List Nat))}
    (h : List.Forall₂ detailGrow l l') : l'.map Prod.fst = l.map Prod.fst := by
  induction h with
  | nil => rfl
  | cons hab h ih => rw [List.map_cons, List.map_cons, ih, hab.1]

theorem addDetail_grow (reg : List (List Nat × List (List Nat))) (k d : List Nat) :
    List.Forall₂ detailGrow reg (addDetail reg k d) := by
  induction reg with
  | nil => exact List.Forall₂.nil
  | cons e t ih =>
    refine List.Forall₂.cons ?_ ih
    show detailGrow e (if e.1 = k then (e.1, addToSet e.2 d) else e)
    by_cases he : e.1 = k
    · rw [if_pos he]
      by_cases hd : d ∈ e.2
      · exact ⟨rfl, [], by simp [addToSet, hd]⟩
      · exact ⟨rfl, [d], by simp [addToSet, hd]⟩
    · rw [if_neg he]
      exact ⟨rfl, [], by simp⟩

theorem foldEx_pres {α : Type} {P : ScanState → ScanState → Prop}
    (hrefl : ∀ s, P s s) (htrans : ∀ a b c, P a b → P b c → P a c)
    (f : ScanState → α → Except String ScanState)
    (hf : ∀ s a s', f s a = .ok s' → P s s') :
    ∀ (l : List α) (s s' : ScanState), foldEx f s l = .ok s' → P s s' := by
  intro l
  induction l with
  | nil =>
    intro s s' h
    unfold foldEx at h
    injection h with h
    subst h
    exact hrefl s
  | cons a t ih =>
    intro s s' h
    unfold foldEx at h
    cases hfa : f s a with
    | error e => rw [hfa] at h; simp at h
    | ok m =>
      rw [hfa] at h
      exact htrans s m s' (hf s a m hfa) (ih m s' h)

theorem foldl_rel {α : Type} {P : ScanState → ScanState → Prop}
    (hrefl : ∀ s, P s s) (htrans : ∀ a b c, P a b → P b c → P a c)
    (f : ScanState → α → ScanState) (hf : ∀ s a, P s (f s a)) :
    ∀ (l : List α) (s : ScanState), P s (l.foldl f s) := by
  intro l
  induction l with
  | nil => intro s; simpa using hrefl s
  | cons a t ih => intro s; rw [List.foldl_cons]; exact htrans _ _ _ (hf s a) (ih (f s a))

theorem consumerStep_pres (page : List Nat) (s : ScanState) (cn : List Nat) (s' : ScanState)
    (h : consumerStep page s cn = .ok s') : consGrow s s' := by
  unfold consumerStep at h
  by_cases hclec : containsSub litCLEC page = true
  · rw [if_pos hclec] at h
    by_cases hm : clecMatches cn page = true
    · rw [if_pos hm] at h; simp at h
    · rw [if_neg hm] at h
      injection h with h
      subst h
      exact ⟨rfl, rfl, forall2_grow_refl _⟩
  · rw [if_neg hclec] at h
    cases hg : genericSearch cn page with
    | none =>
      rw [hg] at h
      injection h with h
      subst h
      exact ⟨rfl, rfl, forall2_grow_refl _⟩
    | some x =>
      obtain ⟨g0, r1, r2⟩ := x
      rw [hg] at h
      injection h with h
      subst h
      exact ⟨rfl, rfl, addDetail_grow _ _ _⟩

theorem consGrow_refl (s : ScanState) : consGrow s s := ⟨rfl, rfl, forall2_grow_refl _⟩

theorem consGrow_trans (a b c : ScanState) (h1 : consGrow a b) (h2 : consGrow b c) :
    consGrow a c :=
  ⟨h2.1.trans h1.1, h2.2.1.trans h1.2.1, forall2_grow_trans h1.2.2 h2.2.2⟩

theorem filtGrow_refl (s : ScanState) : filtGrow s s := ⟨rfl, rfl, forall2_grow_refl _⟩

theorem filtGrow_trans (a b c : ScanState) (h1 : filtGrow a b) (h2 : filtGrow b c) :
    filtGrow a c :=
  ⟨h2.1.trans h1.1, h2.2.1.trans h1.2.1, forall2_grow_trans h1.2.2 h2.2.2⟩

theorem filterStep_pres (page : List Nat) (s : ScanState) (fn : List Nat) :
    filtGrow s (filterStep page s fn) := by
  unfold filterStep
  by_cases hc : containsSub fn page = true
  · rw [if_pos hc]
    cases hf : filterSearch fn page with
    | none => exact filtGrow_refl s
    | some q => exact ⟨rfl, rfl, addDetail_grow _ _ _⟩
  · rw [if_neg hc]
    exact filtGrow_refl s

theorem pass2Window_pres (s : ScanState) (page : List Nat) (s' : ScanState)
    (h : pass2Window s page = .ok s') :
    s'.bindings = s.bindings ∧
      List.Forall₂ detailGrow s.consumers s'.consumers ∧
      List.Forall₂ detailGrow s.filters s'.filters := by
  unfold pass2Window at h
  cases hcs : (if containsSub litEC page = true then
      foldEx (consumerStep page) s (s.consumers.map Prod.fst) else Except.ok s) with
  | error e => rw [hcs] at h; simp at h
  | ok m =>
    rw [hcs] at h
    injection h with h
    have hcg : consGrow s m := by
      by_cases hec : containsSub litEC page = true
      · rw [if_pos hec] at hcs
        exact foldEx_pres consGrow_refl consGrow_trans _
          (fun a b c hx => consumerStep_pres page a b c hx) _ s m hcs
      · rw [if_neg hec] at hcs
        injection hcs with hcs
        subst hcs
        exact consGrow_refl s
    have hfg : filtGrow m ((m.filters.map Prod.fst).foldl (filterStep page) m) :=
      foldl_rel filtGrow_refl filtGrow_trans _ (fun a b => filterStep_pres page a b) _ m
    rw [h] at hfg
    obtain ⟨hf1, hf2, hf3⟩ := hfg
    obtain ⟨hc1, hc2, hc3⟩ := hcg
    refine ⟨hf1.trans hc1, ?_, ?_⟩
    · rw [hf2]; exact hc3
    · rw [hc2] at hf3; exact hf3

theorem pass1Window_inv (st : ScanState) (page : List Nat)
    (h : ∀ e ∈ st.bindings,
      hasKey st.consumers e.2.consumer = true ∧ hasKey st.filters e.2.filterName = true) :
    ∀ e ∈ (pass1Window st page).bindings,
      hasKey (pass1Window st page).consumers e.2.consumer = true ∧
      hasKey (pass1Window st page).filters e.2.filterName = true := by
  rcases pass1Window_shape st page with heq | ⟨cn, fn, _, _, _, ⟨hk, heq⟩ | ⟨hk, heq⟩⟩
  · rw [heq]; exact h
  · rw [heq]
    intro e he
    exact ⟨hasKey_ensureKey_mono _ cn _ (h e he).1, hasKey_ensureKey_mono _ fn _ (h e he).2⟩
  · rw [heq]
    intro e he
    rcases List.mem_append.1 he with he | he
    · exact ⟨hasKey_ensureKey_mono _ cn _ (h e he).1, hasKey_ensureKey_mono _ fn _ (h e he).2⟩
    · rw [List.mem_singleton] at he
      subst he
      exact ⟨hasKey_ensureKey_self _ _, hasKey_ensureKey_self _ _⟩

/-- Claim C7: at the end of pass 1 every binding's consumer and filter names
are registry keys; a pass-1 window never removes a key from any of the three
maps; and a pass-2 window keeps the binding map and both key sets unchanged,
only extending the detail sets of existing keys. -/
theorem claim_C7 :
    (∀ (d : List Nat), ∀ e ∈ (pass1 d).bindings,
      hasKey (pass1 d).consumers e.2.consumer = true ∧
      hasKey (pass1 d).filters e.2.filterName = true) ∧
    (∀ (st : ScanState) (page : List Nat) (k : List Nat),
      (hasKey st.bindings k = true → hasKey (pass1Window st page).bindings k = true) ∧
      (hasKey st.consumers k = true → hasKey (pass1Window st page).consumers k = true) ∧
      (hasKey st.filters k = true → hasKey (pass1Window st page).filters k = true)) ∧
    (∀ (st : ScanState) (page : List Nat) (st' : ScanState),
      pass2Window st page = .ok st' →
      st'.bindings = st.bindings ∧
      st'.consumers.map Prod.fst = st.consumers.map Prod.fst ∧
      st'.filters.map Prod.fst = st.filters.map Prod.fst ∧
      List.Forall₂ detailGrow st.consumers st'.consumers ∧
      List.Forall₂ detailGrow st.filters st'.filters) := by
  refine ⟨?_, ?_, ?_⟩
  · intro d
    unfold pass1
    exact foldl_pres _ (fun s w hw => pass1Window_inv s (joinSp w) hw) _ initState
      (by intro e he; simp [initState] at he)
  · intro st page k
    rcases pass1Window_shape st page with heq | ⟨cn, fn, _, _, _, ⟨hk, heq⟩ | ⟨hk, heq⟩⟩
    · rw [heq]; exact ⟨id, id, id⟩
    · rw [heq]
      exact ⟨id, hasKey_ensureKey_mono _ cn k, hasKey_ensureKey_mono _ fn k⟩
    · rw [heq]
      exact ⟨hasKey_append_right _ _ k, hasKey_ensureKey_mono _ cn k,
        hasKey_ensureKey_mono _ fn k⟩
  · intro st page st' h
    obtain ⟨hb, hcg, hfg⟩ := pass2Window_pres st page st' h
    exact ⟨hb, forall2_grow_keys hcg, forall2_grow_keys hfg, hcg, hfg⟩

/-- Witness for claim C7 at the two-window input. -/
theorem claim_C7_witness :
    hasKey (pass1 c6Input).consumers (ascii "A") = true ∧
      hasKey (pass1 c6Input).filters (ascii "B") = true :=
  claim_C7.1 c6Input (ascii "A-B", ⟨ascii "A", ascii "B"⟩) (by decide)

/- ————————————————————————————————————————————————————————————————————
Lemmas about the pass-1 name captures.
———————————————————————————————————————————————————————————————————— -/

theorem nameCheck_nil (lit : List Nat) : nameCheck lit [] = none := by
  cases lit with
  | nil => simp [nameCheck, List.isPrefixOf]
  | cons a l => simp [nameCheck, List.isPrefixOf]

theorem nameCheck_some (lit s n : List Nat) (h : nameCheck lit s = some n) :
    n = (s.drop lit.length).takeWhile isNameByte := by
  unfold nameCheck at h
  by_cases hp : lit.isPrefixOf s = true
  · rw [if_pos hp] at h
    by_cases hq : (((s.drop lit.length).dropWhile isNameByte).headD 0 = 34)
    · rw [if_pos hq] at h
      injection h with h
      exact h.symm
    · rw [if_neg hq] at h
      cases h
  · rw [if_neg hp] at h
    cases h

theorem nameMatchAt_zero (lit page : List Nat) :
    nameMatchAt lit page 0 = nameCheck lit page := rfl

theorem nameMatchAt_succ (lit : List Nat) (b : Nat) (bs : List Nat) (i : Nat) :
    nameMatchAt lit (b :: bs) (i + 1) = nameMatchAt lit bs i := by
  unfold nameMatchAt
  rw [List.drop_succ_cons]

theorem extractName_first (lit : List Nat) :
    ∀ (page n : List Nat),
      extractName lit page = some n ↔
        ∃ i, nameMatchAt lit page i = some n ∧
          ∀ j, j < i → nameMatchAt lit page j = none := by
  intro page
  induction page with
  | nil =>
    intro n
    constructor
    · intro h
      exact absurd h (by simp [extractName])
    · rintro ⟨i, hi, _⟩
      have : nameMatchAt lit [] i = none := by
        unfold nameMatchAt
        rw [List.drop_nil]
        exact nameCheck_nil lit
      rw [this] at hi
      cases hi
  | cons b bs ih =>
    intro n
    cases hc : nameCheck lit (b :: bs) with
    | some m =>
      constructor
      · intro h
        simp only [extractName, hc] at h
        refine ⟨0, ?_, ?_⟩
        · rw [nameMatchAt_zero, hc]; exact h
        · intro j hj; omega
      · rintro ⟨i, hi, hj⟩
        cases i with
        | zero =>
          rw [nameMatchAt_zero, hc] at hi
          simp only [extractName, hc]
          exact hi
        | succ i' =>
          have h0 := hj 0 (Nat.succ_pos i')
          rw [nameMatchAt_zero, hc] at h0
          cases h0
    | none =>
      have heq : extractName lit (b :: bs) = extractName lit bs := by
        simp only [extractName, hc]
      rw [heq, ih n]
      constructor
      · rintro ⟨i, hi, hj⟩
        refine ⟨i + 1, ?_, ?_⟩
        · rw [nameMatchAt_succ]; exact hi
        · intro j hji
          cases j with
          | zero => rw [nameMatchAt_zero]; exact hc
          | succ j' => rw [nameMatchAt_succ]; exact hj j' (by omega)
      · rintro ⟨i, hi, hj⟩
        cases i with
        | zero =>
          rw [nameMatchAt_zero, hc] at hi
          cases hi
        | succ i' =>
          rw [nameMatchAt_succ] at hi
          refine ⟨i', hi, ?_⟩
          intro j hji
          have hjj := hj (j + 1) (by omega)
          rw [nameMatchAt_succ] at hjj
          exact hjj

theorem extractName_bytes (lit : List Nat) :
    ∀ (page n : List Nat), extractName lit page = some n →
      ∀ b ∈ n, isNameByte b = true := by
  intro page
  induction page with
  | nil =>
    intro n h
    exact absurd h (by simp [extractName])
  | cons x bs ih =>
    intro n h
    cases hc : nameCheck lit (x :: bs) with
    | none =>
      simp only [extractName, hc] at h
      exact ih n h
    | some m =>
      simp only [extractName, hc] at h
      have hm := nameCheck_some lit (x :: bs) m hc
      injection h with h
      subst h
      rw [hm]
      intro b hb
      exact List.mem_takeWhile_imp hb

theorem isNameByte_le (b : Nat) (h : isNameByte b = true) : b ≤ 127 := by
  unfold isNameByte isWordByte isSpaceByte at h
  simp only [Bool.or_eq_true, Bool.and_eq_true, decide_eq_true_eq, beq_iff_eq] at h
  omega

theorem utf8Next_ascii (b : Nat) (hb : b ≤ 127) :
    utf8Next (some (0, 128, 191)) b = some (0, 128, 191) := by
  show (if b ≤ 127 then some (0, 128, 191) else _) = some (0, 128, 191)
  rw [if_pos hb]

theorem utf8Valid_ascii : ∀ (l : List Nat), (∀ b ∈ l, b ≤ 127) → utf8Valid l = true := by
  have hf : ∀ (l : List Nat), (∀ b ∈ l, b ≤ 127) →
      l.foldl utf8Next (some (0, 128, 191)) = some (0, 128, 191) := by
    intro l
    induction l with
    | nil => intro _; rfl
    | cons b bs ih =>
      intro h
      rw [List.foldl_cons, utf8Next_ascii b (h b (List.mem_cons_self b bs))]
      exact ih (fun x hx => h x (List.mem_cons_of_mem b hx))
  intro l h
  unfold utf8Valid
  rw [hf l h]

theorem append_dash_inj : ∀ (c c' f f' : List Nat), 45 ∉ c → 45 ∉ c' →
    c ++ 45 :: f = c' ++ 45 :: f' → c = c' ∧ f = f' := by
  intro c
  induction c with
  | nil =>
    intro c' f f' _ hc' h
    cases c' with
    | nil =>
      refine ⟨rfl, ?_⟩
      simpa using h
    | cons y ys =>
      rw [List.nil_append, List.cons_append] at h
      injection h with h1 h2
      exact absurd (show (45 : Nat) ∈ y :: ys by rw [← h1]; exact List.mem_cons_self _ _) hc'
  | cons x xs ih =>
    intro c' f f' hc hc' h
    cases c' with
    | nil =>
      rw [List.cons_append, List.nil_append] at h
      injection h with h1 h2
      exact absurd (show (45 : Nat) ∈ x :: xs by rw [h1]; exact List.mem_cons_self _ _) hc
    | cons y ys =>
      rw [List.cons_append, List.cons_append] at h
      injection h with h1 h2
      obtain ⟨e1, e2⟩ := ih ys f f' (fun hm => hc (List.mem_cons_of_mem x hm))
        (fun hm => hc' (List.mem_cons_of_mem y hm)) h2
      exact ⟨by rw [h1, e1], e2⟩

/-- Claim C9: names captured by the pass-1 patterns hold only word or
whitespace bytes; hence no dash byte 45 and no null byte, the binding id
bytes always decode (valid UTF-8, indeed ASCII), and equal binding ids force
equal name pairs. -/
theorem claim_C9 (page page2 cn fn cn2 fn2 : List Nat)
    (hc : extractName litConsumerName page = some cn)
    (hf : extractName litFilterName page = some fn)
    (hc2 : extractName litConsumerName page2 = some cn2)
    (hf2 : extractName litFilterName page2 = some fn2) :
    (∀ b ∈ cn, isNameByte b = true) ∧ (∀ b ∈ fn, isNameByte b = true) ∧
    45 ∉ cn ∧ 0 ∉ cn ∧ 45 ∉ fn ∧ 0 ∉ fn ∧
    utf8Valid (bid cn fn) = true ∧
    (bid cn fn = bid cn2 fn2 → cn = cn2 ∧ fn = fn2) := by
  have hbc := extractName_bytes _ _ _ hc
  have hbf := extractName_bytes _ _ _ hf
  have hbc2 := extractName_bytes _ _ _ hc2
  have h45c : 45 ∉ cn := fun hm => absurd (hbc 45 hm) (by decide)
  have h45f : 45 ∉ fn := fun hm => absurd (hbf 45 hm) (by decide)
  have h45c2 : 45 ∉ cn2 := fun hm => absurd (hbc2 45 hm) (by decide)
  have h0c : 0 ∉ cn := fun hm => absurd (hbc 0 hm) (by decide)
  have h0f : 0 ∉ fn := fun hm => absurd (hbf 0 hm) (by decide)
  refine ⟨hbc, hbf, h45c, h0c, h45f, h0f, ?_, ?_⟩
  · refine utf8Valid_ascii _ ?_
    intro b hb
    unfold bid at hb
    rcases List.mem_append.1 hb with hb | hb
    · exact isNameByte_le b (hbc b hb)
    · rcases List.mem_cons.1 hb with rfl | hb
      · omega
      · exact isNameByte_le b (hbf b hb)
  · intro hbid
    exact append_dash_inj cn cn2 fn fn2 h45c h45c2 hbid

/-- Witness for claim C9 at a page whose captures are "Up 1" and "Tr". -/
theorem claim_C9_witness :
    45 ∉ ascii "Up 1" ∧ utf8Valid (bid (ascii "Up 1") (ascii "Tr")) = true := by
  have h := claim_C9 (ascii "EventConsumer.Name=\"Up 1\" _EventFilter.Name=\"Tr\"")
    (ascii "EventConsumer.Name=\"Up 1\" _EventFilter.Name=\"Tr\"")
    (ascii "Up 1") (ascii "Tr") (ascii "Up 1") (ascii "Tr")
    (by decide) (by decide) (by decide) (by decide)
  exact ⟨h.2.2.1, h.2.2.2.2.2.2.1⟩

/-- Claim C10: a pass-1 window adds at most one binding, and the one it can
add is built from the captured pair; the captures themselves are the first
matches of the patterns in the window (the match at the least position at
which the anchored attempt succeeds). -/
theorem claim_C10 :
    (∀ (st : ScanState) (page : List Nat), ∀ e ∈ (pass1Window st page).bindings,
      e ∈ st.bindings ∨
      ∃ cn fn, extractName litConsumerName page = some cn ∧
        extractName litFilterName page = some fn ∧ e = (bid cn fn, ⟨cn, fn⟩)) ∧
    (∀ (st : ScanState) (page : List Nat),
      (pass1Window st page).bindings.length ≤ st.bindings.length + 1) ∧
    (∀ (lit page n : List Nat),
      extractName lit page = some n ↔
        ∃ i, nameMatchAt lit page i = some n ∧
          ∀ j, j < i → nameMatchAt lit page j = none) := by
  refine ⟨?_, ?_, fun lit page n => extractName_first lit page n⟩
  · intro st page e he
    rcases pass1Window_shape st page with heq | ⟨cn, fn, _, hc, hf, ⟨hk, heq⟩ | ⟨hk, heq⟩⟩
    · rw [heq] at he; exact Or.inl he
    · rw [heq] at he; exact Or.inl he
    · rw [heq] at he
      rcases List.mem_append.1 he with he | he
      · exact Or.inl he
      · rw [List.mem_singleton] at he
        exact Or.inr ⟨cn, fn, hc, hf, he⟩
  · intro st page
    rcases pass1Window_shape st page with heq | ⟨cn, fn, _, _, _, ⟨hk, heq⟩ | ⟨hk, heq⟩⟩
    · rw [heq]; omega
    · rw [heq]
      show st.bindings.length ≤ st.bindings.length + 1
      omega
    · rw [heq]
      show (st.bindings ++ [(bid cn fn, Binding.mk cn fn)]).length ≤ st.bindings.length + 1
      simp

/-- Witness for claim C10 at a window holding two consumer-name and two
filter-name records next to the marker. -/
theorem claim_C10_witness :
    (ascii "A-X", Binding.mk (ascii "A") (ascii "X")) ∈ (initState : ScanState).bindings ∨
      ∃ cn fn,
        extractName litConsumerName
          (ascii "_FilterToConsumerBinding EventConsumer.Name=\"A\" EventConsumer.Name=\"B\" _EventFilter.Name=\"X\" _EventFilter.Name=\"Y\"") = some cn ∧
        extractName litFilterName
          (ascii "_FilterToConsumerBinding EventConsumer.Name=\"A\" EventConsumer.Name=\"B\" _EventFilter.Name=\"X\" _EventFilter.Name=\"Y\"") = some fn ∧
        (ascii "A-X", Binding.mk (ascii "A") (ascii "X")) = (bid cn fn, ⟨cn, fn⟩) :=
  claim_C10.1 initState
    (ascii "_FilterToConsumerBinding EventConsumer.Name=\"A\" EventConsumer.Name=\"B\" _EventFilter.Name=\"X\" _EventFilter.Name=\"Y\"")
    (ascii "A-X", Binding.mk (ascii "A") (ascii "X")) (by decide)

/- ————————————————————————————————————————————————————————————————————
Lemmas about the report step.
———————————————————————————————————————————————————————————————————— -/

theorem mapEx_ok_forall2 {α β : Type} (f : α → Except String β) :
    ∀ (l : List α) (bs : List β), mapEx f l = .ok bs →
      List.Forall₂ (fun a b => f a = .ok b) l bs := by
  intro l
  induction l with
  | nil =>
    intro bs h
    unfold mapEx at h
    injection h with h
    subst h
    exact List.Forall₂.nil
  | cons a t ih =>
    intro bs h
    unfold mapEx at h
    cases hfa : f a with
    | error e => rw [hfa] at h; simp at h
    | ok b =>
      rw [hfa] at h
      cases hmt : mapEx f t with
      | error e => rw [hmt] at h; simp at h
      | ok ts =>
        rw [hmt] at h
        injection h with h
        subst h
        exact List.Forall₂.cons hfa (ih ts hmt)

theorem mapEx_ok_of_all {α β : Type} (f : α → Except String β) :
    ∀ (l : List α), (∀ a ∈ l, ∃ b, f a = .ok b) → ∃ bs, mapEx f l = .ok bs := by
  intro l
  induction l with
  | nil => intro _; exact ⟨[], rfl⟩
  | cons a t ih =>
    intro h
    obtain ⟨b, hb⟩ := h a (List.mem_cons_self a t)
    obtain ⟨bs, hbs⟩ := ih (fun x hx => h x (List.mem_cons_of_mem a hx))
    refine ⟨b :: bs, ?_⟩
    unfold mapEx
    rw [hb, hbs]

theorem lookKey_mem {β : Type} : ∀ (l : List (List Nat × β)) (k : List Nat) (v : β),
    lookKey k l = some v → (k, v) ∈ l := by
  intro l
  induction l with
  | nil => intro k v h; cases h
  | cons e t ih =>
    intro k v h
    rcases e with ⟨k', v'⟩
    unfold lookKey at h
    by_cases he : k' = k
    · rw [if_pos ?_] at h
      · injection h with h
        subst h
        subst he
        exact List.mem_cons_self _ _
      · exact he
    · rw [if_neg ?_] at h
      · exact List.mem_cons_of_mem _ (ih k v h)
      · exact he

theorem renderEntry_ok_proj (st : ScanState) (e : List Nat × Binding) (en : Entry)
    (h : renderEntry st e = .ok en) :
    en.idBytes = e.1 ∧ en.common = isCommonId e.1 := by
  unfold renderEntry at h
  cases h1 : lookKey e.2.consumer st.consumers with
  | none => rw [h1] at h; simp at h
  | some cds =>
    rw [h1] at h
    cases h2 : consumerLinesOf e.2.consumer cds with
    | error er => simp only [h2] at h; exact Except.noConfusion h
    | ok cls =>
      simp only [h2] at h
      cases h3 : lookKey e.2.filterName st.filters with
      | none => simp only [h3] at h; simp at h
      | some fds =>
        simp only [h3] at h
        cases h4 : mapEx decodeChecked fds with
        | error er => simp only [h4] at h; exact Except.noConfusion h
        | ok fls =>
          simp only [h4] at h
          injection h with h
          subst h
          exact ⟨rfl, rfl⟩

theorem renderEntry_ok_of (st : ScanState) (e : List Nat × Binding)
    (hc : hasKey st.consumers e.2.consumer = true)
    (hf : hasKey st.filters e.2.filterName = true)
    (hnm : utf8Valid e.2.consumer = true)
    (hcd : ∀ k ds, (k, ds) ∈ st.consumers → ∀ d ∈ ds, utf8Valid d = true)
    (hfd : ∀ k ds, (k, ds) ∈ st.filters → ∀ d ∈ ds, utf8Valid d = true) :
    ∃ en, renderEntry st e = .ok en := by
  obtain ⟨cds, h1⟩ := Option.isSome_iff_exists.1 hc
  obtain ⟨fds, h3⟩ := Option.isSome_iff_exists.1 hf
  have hcls : ∃ cls, consumerLinesOf e.2.consumer cds = .ok cls := by
    unfold consumerLinesOf
    by_cases hemp : cds.isEmpty = true
    · rw [if_pos hemp]
      unfold decodeChecked
      rw [if_pos hnm]
      exact ⟨[e.2.consumer], rfl⟩
    · rw [if_neg hemp]
      refine mapEx_ok_of_all _ cds ?_
      intro d hd
      refine ⟨d, ?_⟩
      unfold decodeChecked
      rw [if_pos (hcd _ cds (lookKey_mem _ _ _ h1) d hd)]
  obtain ⟨cls, h2⟩ := hcls
  have hfls : ∃ fls, mapEx decodeChecked fds = .ok fls := by
    refine mapEx_ok_of_all _ fds ?_
    intro d hd
    refine ⟨d, ?_⟩
    unfold decodeChecked
    rw [if_pos (hfd _ fds (lookKey_mem _ _ _ h3) d hd)]
  obtain ⟨fls, h4⟩ := hfls
  refine ⟨⟨e.1, isCommonId e.1, cls, fls⟩, ?_⟩
  unfold renderEntry
  simp only [h1, h2, h3, h4]

theorem pass2_bindings (d : List Nat) (st st' : ScanState) (h : pass2 d st = .ok st') :
    st'.bindings = st.bindings := by
  unfold pass2 at h
  exact foldEx_pres (P := fun a b => b.bindings = a.bindings) (fun s => rfl)
    (fun a b c h1 h2 => h2.trans h1) _
    (fun s w s'' hw => (pass2Window_pres s _ s'' hw).1) _ st st' h

theorem report_ok_parts (d : List Nat) (n : Nat) (es : List Entry)
    (h : report d = .ok (n, es)) :
    ∃ st, pass2 d (pass1 d) = .ok st ∧ reportEntries st = .ok es ∧
      n = (pass1 d).bindings.length := by
  unfold report at h
  cases h1 : pass2 d (pass1 d) with
  | error e => rw [h1] at h; simp at h
  | ok st =>
    rw [h1] at h
    cases h2 : reportEntries st with
    | error e => simp only [h2] at h; exact Except.noConfusion h
    | ok es' =>
      simp only [h2] at h
      injection h with h
      injection h with ha hb
      subst ha
      subst hb
      exact ⟨st, rfl, h2, rfl⟩

theorem forall2_map_eq {α β γ : Type} (f : α → Except String β) (g : β → γ) (k : α → γ)
    (hproj : ∀ a b, f a = .ok b → g b = k a) :
    ∀ (l : List α) (bs : List β), List.Forall₂ (fun a b => f a = .ok b) l bs →
      bs.map g = l.map k := by
  intro l bs hf
  induction hf with
  | nil => rfl
  | cons hab hrest ih => rw [List.map_cons, List.map_cons, ih, hproj _ _ hab]

/-- Claim C2 (corrected): the advisory allow-list check of the report is
substring containment of "BVTConsumer-BVTFilter" or
"SCM Event Log Consumer-SCM Event Log Filter" in the binding id, not exact
equality — the counterexample shows a strictly larger id that still carries
the annotation. -/
theorem claim_C2_cex :
    report c2Input =
      .ok (1, [⟨ascii "XBVTConsumer-BVTFilter", true, [ascii "XBVTConsumer"], []⟩]) ∧
    ascii "XBVTConsumer-BVTFilter" ≠ allow1 ∧
    ascii "XBVTConsumer-BVTFilter" ≠ allow2 :=
  ⟨by decide, by decide, by decide⟩

/-- Claim C2 (amended): in a successfully rendered report every binding
produces exactly one entry, the entry carries the advisory flag exactly when
the binding id contains one of the two allow-list strings as a substring, and
ids exactly equal to an allow-list string are therefore flagged. -/
theorem claim_C2 :
    (∀ (d : List Nat) (n : Nat) (es : List Entry), report d = .ok (n, es) →
      es.map (fun en => (en.idBytes, en.common)) =
        (pass1 d).bindings.map (fun e => (e.1, isCommonId e.1)) ∧
      es.length = (pass1 d).bindings.length ∧
      n = (pass1 d).bindings.length) ∧
    (∀ idb : List Nat, idb = allow1 ∨ idb = allow2 → isCommonId idb = true) := by
  constructor
  · intro d n es h
    obtain ⟨st, h1, h2, h3⟩ := report_ok_parts d n es h
    have hb : st.bindings = (pass1 d).bindings := pass2_bindings d (pass1 d) st h1
    unfold reportEntries at h2
    have hfa := mapEx_ok_forall2 _ _ _ h2
    refine ⟨?_, ?_, h3⟩
    · rw [← hb]
      refine forall2_map_eq _ _ _ ?_ _ _ hfa
      intro e en he
      obtain ⟨hid, hcm⟩ := renderEntry_ok_proj st e en he
      rw [hid, hcm]
    · rw [← hb]
      exact (List.Forall₂.length_eq hfa).symm
  · rintro idb (rfl | rfl)
    · decide
    · decide

/-- Witness for claim C2 at the containment-only input. -/
theorem claim_C2_witness :
    ([(⟨ascii "XBVTConsumer-BVTFilter", true, [ascii "XBVTConsumer"], []⟩ : Entry)]).map
        (fun en => (en.idBytes, en.common)) =
      (pass1 c2Input).bindings.map (fun e => (e.1, isCommonId e.1)) :=
  (claim_C2.1 c2Input 1
    [⟨ascii "XBVTConsumer-BVTFilter", true, [ascii "XBVTConsumer"], []⟩] (by decide)).1

/-- Claim C4 (corrected): the report step strict-decodes every rendered
detail under the display encoding (modelled as UTF-8); a filter query byte
255 recorded by pass 2 makes rendering fail with a decode error — invalid
bytes are neither filtered nor passed through raw. -/
theorem claim_C4_cex : report c4Input = .error "UnicodeDecodeError" := by decide

/-- Claim C4 (amended): the report step completes without a decode error on
every registry state whose rendered byte strings are valid under the display
encoding: registered names for each binding, valid consumer fallback name,
and valid detail bytes in both registries. -/
theorem claim_C4 (st : ScanState)
    (hkeys : ∀ e ∈ st.bindings, hasKey st.consumers e.2.consumer = true ∧
      hasKey st.filters e.2.filterName = true ∧ utf8Valid e.2.consumer = true)
    (hcd : ∀ k ds, (k, ds) ∈ st.consumers → ∀ d ∈ ds, utf8Valid d = true)
    (hfd : ∀ k ds, (k, ds) ∈ st.filters → ∀ d ∈ ds, utf8Valid d = true) :
    ∃ es, reportEntries st = .ok es := by
  unfold reportEntries
  refine mapEx_ok_of_all _ st.bindings ?_
  intro e he
  exact renderEntry_ok_of st e (hkeys e he).1 (hkeys e he).2.1 (hkeys e he).2.2 hcd hfd

/-- Witness for claim C4 at a one-binding state with empty detail sets. -/
theorem claim_C4_witness :
    ∃ es, reportEntries
      ⟨[(ascii "C-F", ⟨ascii "C", ascii "F"⟩)], [(ascii "C", [])], [(ascii "F", [])]⟩ =
      .ok es := by
  refine claim_C4 _ (by decide) ?_ ?_
  · intro k ds hm d hd
    rw [List.mem_singleton] at hm
    have hds : ds = [] := congrArg Prod.snd hm
    subst hds
    simp at hd
  · intro k ds hm d hd
    rw [List.mem_singleton] at hm
    have hds : ds = [] := congrArg Prod.snd hm
    subst hds
    simp at hd

/-- Claim C1 (code bug): on the end-to-end scenario input pass 1 does record
the binding Updater-Trigger, but as soon as the pass-2
CommandLineEventConsumer pattern matches, the code evaluates
`b"...".format(...)`, and bytes has no format method on Python 3, so the
scan raises AttributeError instead of adding the printable-filtered detail
record and rendering the report. -/
theorem claim_C1_crash :
    (pass1 c1Input).bindings =
      [(ascii "Updater-Trigger", ⟨ascii "Updater", ascii "Trigger"⟩)] ∧
    report c1Input = .error "AttributeError: bytes.format" :=
  ⟨by decide, by decide⟩

end PyWMI
